import Mathlib

/-!
# Matrix File Rain — drop animation engine, shallow embedding

A shallow embedding of the drop animation engine of
`Matrix File Rain/matrix_rain_gui.py`: the Grid Allocator (`_create_drops`)
and the Drop Animator (`_update_rain`), together with the glyph rendering
rules.  Python's global `random` module is modelled as an arbitrary stream
of naturals together with a read position; each primitive (`randint`,
`randrange`, `random.choice` on a two-element list, `random.random() < 0.5`)
consumes one stream value and reduces it into its range, so that a theorem
quantified over all streams covers every realisable sequence of random
draws.  Canvas calls (`create_text`, `delete`) become an event list, and
canvas item ids are modelled by a fresh-id counter.
-/

namespace MatrixRain

/-- Display mode, the value of `self.mode_var` (`"ascii"`, `"hex"`,
`"mixed"`); per-drop resolved modes are only ever `ascii` or `hex`. -/
inductive Mode where
  | ascii : Mode
  | hex : Mode
  | mixed : Mode
deriving DecidableEq, Repr

/-- The random source: an arbitrary infinite stream of naturals and the
position of the next unread value.  This stands for the state of Python's
global `random` generator. -/
structure Rng where
  stream : Nat → Nat
  pos : Nat

/-- Read one raw value from the stream. -/
def Rng.next (g : Rng) : Nat × Rng :=
  (g.stream g.pos, { stream := g.stream, pos := g.pos + 1 })

/-- `random.randint(a, b)`: a value in `[a, b]` (both ends included),
obtained by reducing the next stream value into the range.  In the source
every call has `a ≤ b`. -/
def randint (g : Rng) (a b : Nat) : Nat × Rng :=
  (a + g.next.1 % (b + 1 - a), g.next.2)

/-- `random.randrange(n)`: a value in `[0, n)`.  In the source `n` is the
file size, which is at least 1 (empty files are rejected). -/
def randrange (g : Rng) (n : Nat) : Nat × Rng :=
  (g.next.1 % n, g.next.2)

/-- `random.random() < 0.5`: a fair coin, modelled by the parity of the
next stream value. -/
def coin (g : Rng) : Bool × Rng :=
  (decide (g.next.1 % 2 = 0), g.next.2)

/-- `random.choice([u, v])` on a two-element list: the index is the next
stream value reduced modulo 2. -/
def choice2 {α : Type} (g : Rng) (u v : α) : α × Rng :=
  (if g.next.1 % 2 = 0 then u else v, g.next.2)

/-- One drop, the dict built in `_create_drops` (lines 194-201), together
with its parallel `self.drop_items[i]` list of live canvas item ids
(oldest first). -/
structure Drop where
  x : Nat
  y : Int
  width : Nat
  tail : Nat
  index : Nat
  mode : Mode
  items : List Nat
deriving DecidableEq, Repr

/-- A default drop, used only as the fallback value of `List.getD`. -/
def defaultDrop : Drop :=
  { x := 0, y := 0, width := 1, tail := 0, index := 0
    mode := Mode.ascii, items := [] }

/-- The engine's fixed inputs for one run: global display mode, grid
dimensions, file size and contents, tail-length tuning.  `fileData i` is
byte `i` of the file; every byte value is below 256. -/
structure Config where
  mode : Mode
  cols : Nat
  rows : Nat
  fileSize : Nat
  minTail : Nat
  maxTail : Nat
  fileData : Nat → Nat

/-- A canvas interaction of one tick: `create_text` at grid cell
`(x, y)` with the given text and fresh item id, or `delete` of an item. -/
inductive Ev where
  | draw (x : Nat) (y : Int) (text : String) (id : Nat) : Ev
  | del (id : Nat) : Ev
deriving DecidableEq, Repr

/-! ## Glyph rendering (lines 252-260) -/

/-- Character codes of Python's `string.digits`. -/
def string_digits : List Nat := (List.range 10).map (fun i => 48 + i)

/-- Character codes of Python's `string.ascii_lowercase`. -/
def string_ascii_lowercase : List Nat := (List.range 26).map (fun i => 97 + i)

/-- Character codes of Python's `string.ascii_uppercase`. -/
def string_ascii_uppercase : List Nat := (List.range 26).map (fun i => 65 + i)

/-- Character codes of Python's `string.punctuation`:
`!"#$%&'()*+,-./` (33-47), `:;<=>?@` (58-64), `[\]^_` and backquote
(91-96), `{|}~` (123-126). -/
def string_punctuation : List Nat :=
  (List.range 15).map (fun i => 33 + i) ++ (List.range 7).map (fun i => 58 + i)
    ++ (List.range 6).map (fun i => 91 + i) ++ (List.range 4).map (fun i => 123 + i)

/-- Character codes of Python's `string.whitespace`: space, tab, newline,
carriage return, vertical tab, form feed. -/
def string_whitespace : List Nat := [32, 9, 10, 13, 11, 12]

/-- Character codes of Python's `string.printable` =
`digits + ascii_letters + punctuation + whitespace`. -/
def string_printable : List Nat :=
  string_digits ++ string_ascii_lowercase ++ string_ascii_uppercase
    ++ string_punctuation ++ string_whitespace

/-- Line 256: `chr(byte) if chr(byte) in string.printable and chr(byte)
not in "\x0b\x0c" else '.'`, on character codes. -/
def renderAsciiList (b : Nat) : List Char :=
  if b ∈ string_printable ∧ ¬(b = 11 ∨ b = 12) then [Char.ofNat b] else ['.']

/-- The text emitted for byte `b` in ascii mode. -/
def renderAscii (b : Nat) : String := String.mk (renderAsciiList b)

/-- Upper-case hexadecimal digit of a value below 16. -/
def hexDigit (n : Nat) : Char :=
  if n < 10 then Char.ofNat (48 + n) else Char.ofNat (55 + n)

/-- Line 260: `f"{byte:02X}"` for a byte value (below 256), as a
character list. -/
def renderHexList (b : Nat) : List Char := [hexDigit (b / 16), hexDigit (b % 16)]

/-- The text emitted for byte `b` in hex mode. -/
def renderHex (b : Nat) : String := String.mk (renderHexList b)

/-- Lines 254-260: the glyph text for byte `b` under a drop's resolved
mode (`if drop["mode"] == "ascii": ... else: ...`). -/
def renderText (m : Mode) (b : Nat) : String :=
  match m with
  | Mode.ascii => renderAscii b
  | _ => renderHex b

/-! ## Grid Allocator: `_create_drops` (lines 155-210) -/

/-- `any(occupied[x:x+w])`: some cell of `[x, x+w)` is marked occupied.
Out-of-range reads are `false`, matching Python's short slice. -/
def anyOccupied (occ : List Bool) (x : Nat) : Nat → Bool
  | 0 => false
  | w + 1 => anyOccupied occ x w || occ.getD (x + w) false

/-- `for i in range(w): occupied[x+i] = True`. -/
def markOccupied (occ : List Bool) (x : Nat) : Nat → List Bool
  | 0 => occ
  | w + 1 => (markOccupied occ x w).set (x + w) true

/-- Width resolution at allocation (lines 171-181): hex drops are two
columns wide, ascii drops one; in mixed mode a coin is flipped first and
width 2 is kept only when `x < cols - 1`. -/
def resolveAllocWidth (mode : Mode) (cols x : Nat) (g : Rng) : Nat × Rng :=
  match mode with
  | Mode.hex => (2, g)
  | Mode.ascii => (1, g)
  | Mode.mixed =>
    let bg := choice2 g true false
    (if bg.1 ∧ x < cols - 1 then 2 else 1, bg.2)

/-- The per-drop mode stored at creation (lines 200-204): the global mode,
overridden by an independent ascii/hex choice when the global mode is
mixed. -/
def resolveDropMode (mode : Mode) (g : Rng) : Mode × Rng :=
  if mode = Mode.mixed then choice2 g Mode.ascii Mode.hex else (mode, g)

/-- The column sweep of `_create_drops` (lines 166-210), from column `x`
with the given occupancy.  The loop advances `x` by at least 1 per
iteration and stops once `x ≥ cols`, so `cols` steps of fuel starting from
`x = 0` reproduce it exactly. -/
def createDropsAux (mode : Mode) (cols rows fileSize minTail maxTail : Nat) :
    Nat → List Bool → Nat → Rng → List Drop × Rng
  | 0, _, _, g => ([], g)
  | fuel + 1, occ, x, g =>
    if x < cols then
      let pg := coin g
      if pg.1 then
        let wg := resolveAllocWidth mode cols x pg.2
        if wg.1 = 2 ∧ cols - 1 ≤ x then
          -- line 183: no room for a hex drop; skip this column
          createDropsAux mode cols rows fileSize minTail maxTail fuel occ (x + 1) wg.2
        else if anyOccupied occ x wg.1 then
          createDropsAux mode cols rows fileSize minTail maxTail fuel occ (x + 1) wg.2
        else
          let occ' := markOccupied occ x wg.1
          let yg := randint wg.2 0 rows
          let tg := randint yg.2 minTail maxTail
          let ig := randrange tg.2 fileSize
          let mg := resolveDropMode mode ig.2
          let d : Drop :=
            { x := x, y := -(yg.1 : Int), width := wg.1, tail := tg.1
              index := ig.1, mode := mg.1, items := [] }
          let rest := createDropsAux mode cols rows fileSize minTail maxTail fuel occ' (x + wg.1) mg.2
          (d :: rest.1, rest.2)
      else
        createDropsAux mode cols rows fileSize minTail maxTail fuel occ (x + 1) pg.2
    else ([], g)

/-- `_create_drops`: guard on degenerate grids (line 158), then the column
sweep from `x = 0` over an all-free occupancy vector. -/
def createDrops (c : Config) (g : Rng) : List Drop × Rng :=
  if c.cols < 1 ∨ c.rows < 1 then ([], g)
  else createDropsAux c.mode c.cols c.rows c.fileSize c.minTail c.maxTail
    c.cols (List.replicate c.cols false) 0 g

/-! ## Drop Animator: `_update_rain` (lines 212-284) -/

/-- The recycle branch (lines 219-248), taken when the drop has fully
scrolled off the bottom: resolve a new width from the global mode, pick a
new column in `[0, max(0, cols - width)]` (`randint` is only consumed when
that bound is positive), reset `y`, `tail`, `index` and the per-drop mode,
and delete every live canvas item of the drop.  Returns the new drop, the
random state, the unchanged fresh-id counter, and the canvas events. -/
def recycleDrop (c : Config) (d : Drop) (g : Rng) (nid : Nat) :
    Drop × Rng × Nat × List Ev :=
  let wg : Nat × Rng :=
    match c.mode with
    | Mode.mixed =>
      let cg := choice2 g 1 2
      (if cg.1 = 2 ∧ c.cols < 2 then 1 else cg.1, cg.2)
    | Mode.ascii => (1, g)
    | Mode.hex => (2, g)
  -- line 233: `max_x = max(0, self.cols - width)` (truncated subtraction)
  let maxX := c.cols - wg.1
  let xg := if 0 < maxX then randint wg.2 0 maxX else (0, wg.2)
  let yg := randint xg.2 0 c.rows
  let tg := randint yg.2 c.minTail c.maxTail
  let ig := randrange tg.2 c.fileSize
  let mg := resolveDropMode c.mode ig.2
  ({ x := xg.1, y := -(yg.1 : Int), width := wg.1, tail := tg.1
     index := ig.1, mode := mg.1, items := [] },
   mg.2, nid, d.items.map Ev.del)

/-- The advance/render/trim branch (lines 249-282): move the head down one
row; when the head is on screen, draw the byte at the drop's cursor with a
fresh item id, append the id to the drop's item list and advance the
cursor modulo the file size; finally, pop and delete the oldest items
while more than `tail` of them remain.  The while loop keeps the last
`min length tail` items, i.e. drops the length-minus-tail oldest ones. -/
def advanceDrop (c : Config) (d : Drop) (g : Rng) (nid : Nat) :
    Drop × Rng × Nat × List Ev :=
  let y := d.y + 1
  if 0 ≤ y ∧ y < (c.rows : Int) then
    let b := c.fileData d.index
    let text := renderText d.mode b
    let hist := d.items ++ [nid]
    let k := hist.length - d.tail
    ({ d with y := y, index := (d.index + 1) % c.fileSize, items := hist.drop k },
     g, nid + 1, Ev.draw d.x y text nid :: (hist.take k).map Ev.del)
  else
    let k := d.items.length - d.tail
    ({ d with y := y, items := d.items.drop k },
     g, nid, (d.items.take k).map Ev.del)

/-- One drop's update for one tick (the body of the loop at line 217):
the recycle branch exactly when `y - tail ≥ rows` held at the start of the
tick, the advance branch otherwise. -/
def tickDrop (c : Config) (d : Drop) (g : Rng) (nid : Nat) :
    Drop × Rng × Nat × List Ev :=
  if (c.rows : Int) ≤ d.y - (d.tail : Int) then recycleDrop c d g nid
  else advanceDrop c d g nid

/-- One full tick of `_update_rain`: update every drop in order, threading
the random state and the fresh-id counter, concatenating canvas events. -/
def tickAll (c : Config) : List Drop → Rng → Nat → List Drop × Rng × Nat × List Ev
  | [], g, nid => ([], g, nid, [])
  | d :: ds, g, nid =>
    let r := tickDrop c d g nid
    let rs := tickAll c ds r.2.1 r.2.2.1
    (r.1 :: rs.1, rs.2.1, rs.2.2.1, r.2.2.2 ++ rs.2.2.2)

/-- The engine state after allocation followed by `n` ticks: the drop
list, the random state and the fresh-id counter. -/
def runState (c : Config) (g : Rng) : Nat → List Drop × Rng × Nat
  | 0 => ((createDrops c g).1, (createDrops c g).2, 0)
  | n + 1 =>
    let s := runState c g n
    let r := tickAll c s.1 s.2.1 s.2.2
    (r.1, r.2.1, r.2.2.1)

/-! ## Derived notions and concrete instances used in the statements -/

/-- The character is one of `0`-`9`, `A`-`F`. -/
def isUpperHexDigit (ch : Char) : Bool :=
  (48 ≤ ch.toNat && ch.toNat ≤ 57) || (65 ≤ ch.toNat && ch.toNat ≤ 70)

/-- The numeric value of an upper-case hexadecimal digit character. -/
def hexCharVal (ch : Char) : Nat :=
  if ch.toNat ≤ 57 then ch.toNat - 48 else ch.toNat - 55


/-- The recycle test of line 219: `drop["y"] - drop["tail"] >= self.rows`,
evaluated on the state a drop has at the start of a tick. -/
def recycleCond (rows : Nat) (d : Drop) : Prop :=
  (rows : Int) ≤ d.y - (d.tail : Int)

instance (rows : Nat) (d : Drop) : Decidable (recycleCond rows d) := by
  unfold recycleCond; infer_instance

/-- The column ranges `[x, x+width)` of two drops have no common cell. -/
def dropsDisjoint (d1 d2 : Drop) : Prop :=
  ∀ j : Nat, ¬(d1.x ≤ j ∧ j < d1.x + d1.width ∧ d2.x ≤ j ∧ j < d2.x + d2.width)

/-- The all-zero random stream, one concrete instantiation of the model. -/
def zeroStream : Rng := { stream := fun _ => 0, pos := 0 }

/-- A concrete byte source whose bytes are all zero. -/
def constData : Nat → Nat := fun _ => 0

/-- The end-to-end scenario of the spec: `columns = 4`, `rows = 10`, mode
`Ascii`, source length 100, `minTail = maxTail = 2`. -/
def scenarioConfig : Config :=
  { mode := Mode.ascii, cols := 4, rows := 10, fileSize := 100
    minTail := 2, maxTail := 2, fileData := constData }

/-- A one-column, one-row ascii grid with the default tail tuning. -/
def tinyConfig : Config :=
  { mode := Mode.ascii, cols := 1, rows := 1, fileSize := 1
    minTail := 5, maxTail := 15, fileData := constData }

/-- A degenerate grid with no columns. -/
def degenConfig : Config :=
  { mode := Mode.mixed, cols := 0, rows := 7, fileSize := 3
    minTail := 5, maxTail := 15, fileData := constData }

/-- A drop whose tail has fully cleared a 10-row screen (`y - tail ≥ 10`),
holding two live glyphs. -/
def offscreenDrop : Drop :=
  { x := 1, y := 20, width := 1, tail := 5, index := 7
    mode := Mode.ascii, items := [3, 4] }

/-- A drop whose head is on screen and not due for recycling. -/
def visibleDrop : Drop :=
  { x := 2, y := 0, width := 1, tail := 2, index := 1
    mode := Mode.ascii, items := [6] }

/-! ## Basic facts about the random primitives -/

theorem randint_fst_ge (g : Rng) (a b : Nat) : a ≤ (randint g a b).1 := by
  simp [randint, Rng.next]

theorem randint_fst_le (g : Rng) (a b : Nat) (h : a ≤ b) : (randint g a b).1 ≤ b := by
  have h1 : g.stream g.pos % (b + 1 - a) < b + 1 - a := Nat.mod_lt _ (by omega)
  simp only [randint, Rng.next]
  omega

theorem randrange_fst_lt (g : Rng) (n : Nat) (h : 0 < n) : (randrange g n).1 < n := by
  simp only [randrange, Rng.next]
  exact Nat.mod_lt _ h

theorem choice2_fst {α : Type} (g : Rng) (u v : α) :
    (choice2 g u v).1 = u ∨ (choice2 g u v).1 = v := by
  simp only [choice2, Rng.next]
  split
  · exact Or.inl rfl
  · exact Or.inr rfl

/-! ## Facts about the two tick branches -/

theorem tickDrop_recycle (c : Config) (d : Drop) (g : Rng) (nid : Nat)
    (h : (c.rows : Int) ≤ d.y - (d.tail : Int)) :
    tickDrop c d g nid = recycleDrop c d g nid := if_pos h

theorem tickDrop_advance (c : Config) (d : Drop) (g : Rng) (nid : Nat)
    (h : ¬ (c.rows : Int) ≤ d.y - (d.tail : Int)) :
    tickDrop c d g nid = advanceDrop c d g nid := if_neg h

theorem recycleDrop_items (c : Config) (d : Drop) (g : Rng) (nid : Nat) :
    (recycleDrop c d g nid).1.items = [] := rfl

theorem recycleDrop_evs (c : Config) (d : Drop) (g : Rng) (nid : Nat) :
    (recycleDrop c d g nid).2.2.2 = d.items.map Ev.del := rfl

theorem recycleDrop_nid (c : Config) (d : Drop) (g : Rng) (nid : Nat) :
    (recycleDrop c d g nid).2.2.1 = nid := rfl

theorem advanceDrop_y (c : Config) (d : Drop) (g : Rng) (nid : Nat) :
    (advanceDrop c d g nid).1.y = d.y + 1 := by
  simp only [advanceDrop]
  split <;> rfl

theorem advanceDrop_tail (c : Config) (d : Drop) (g : Rng) (nid : Nat) :
    (advanceDrop c d g nid).1.tail = d.tail := by
  simp only [advanceDrop]
  split <;> rfl

theorem advanceDrop_width (c : Config) (d : Drop) (g : Rng) (nid : Nat) :
    (advanceDrop c d g nid).1.width = d.width := by
  simp only [advanceDrop]
  split <;> rfl

theorem advanceDrop_x (c : Config) (d : Drop) (g : Rng) (nid : Nat) :
    (advanceDrop c d g nid).1.x = d.x := by
  simp only [advanceDrop]
  split <;> rfl

theorem advanceDrop_mode (c : Config) (d : Drop) (g : Rng) (nid : Nat) :
    (advanceDrop c d g nid).1.mode = d.mode := by
  simp only [advanceDrop]
  split <;> rfl

theorem advanceDrop_items_len (c : Config) (d : Drop) (g : Rng) (nid : Nat) :
    (advanceDrop c d g nid).1.items.length ≤ d.tail := by
  simp only [advanceDrop]
  split <;> simp [List.length_drop] <;> omega

theorem neg_randint_bound (g : Rng) (b : Nat) :
    -(b : Int) ≤ -((randint g 0 b).1 : Int) ∧ -((randint g 0 b).1 : Int) ≤ 0 := by
  have h1 := randint_fst_le g 0 b (Nat.zero_le b)
  omega

theorem ite_randint_fst_le (g : Rng) (m : Nat) :
    (if 0 < m then randint g 0 m else ((0 : Nat), g)).1 ≤ m := by
  split
  · exact randint_fst_le _ _ _ (Nat.zero_le _)
  · simp

theorem recycleDrop_y_bound (c : Config) (d : Drop) (g : Rng) (nid : Nat) :
    -(c.rows : Int) ≤ (recycleDrop c d g nid).1.y ∧ (recycleDrop c d g nid).1.y ≤ 0 := by
  rcases hm : c.mode <;> simp only [recycleDrop, hm] <;> exact neg_randint_bound _ c.rows

theorem recycleDrop_tail_bound (c : Config) (d : Drop) (g : Rng) (nid : Nat) :
    c.minTail ≤ (recycleDrop c d g nid).1.tail ∧
      (c.minTail ≤ c.maxTail → (recycleDrop c d g nid).1.tail ≤ c.maxTail) := by
  rcases hm : c.mode <;> simp only [recycleDrop, hm] <;>
    exact ⟨randint_fst_ge _ _ _, fun h => randint_fst_le _ _ _ h⟩

theorem recycleDrop_index_lt (c : Config) (d : Drop) (g : Rng) (nid : Nat)
    (h : 0 < c.fileSize) : (recycleDrop c d g nid).1.index < c.fileSize := by
  rcases hm : c.mode <;> simp only [recycleDrop, hm] <;> exact randrange_fst_lt _ _ h

theorem recycleDrop_mode (c : Config) (d : Drop) (g : Rng) (nid : Nat) :
    (c.mode = Mode.mixed →
      (recycleDrop c d g nid).1.mode = Mode.ascii ∨ (recycleDrop c d g nid).1.mode = Mode.hex) ∧
    (c.mode ≠ Mode.mixed → (recycleDrop c d g nid).1.mode = c.mode) := by
  rcases hm : c.mode
  · exact ⟨fun h => Mode.noConfusion h, fun _ => by simp [recycleDrop, hm, resolveDropMode]⟩
  · exact ⟨fun h => Mode.noConfusion h, fun _ => by simp [recycleDrop, hm, resolveDropMode]⟩
  · refine ⟨fun _ => ?_, fun h => absurd rfl h⟩
    simp only [recycleDrop, hm]
    simp only [resolveDropMode, reduceIte]
    exact choice2_fst _ _ _

theorem recycleDrop_inv (c : Config) (d : Drop) (g : Rng) (nid : Nat)
    (hw : 1 ≤ d.width) (hxw : d.x + d.width ≤ c.cols)
    (hhex : c.mode = Mode.hex → d.width = 2) :
    1 ≤ (recycleDrop c d g nid).1.width ∧
      (recycleDrop c d g nid).1.x + (recycleDrop c d g nid).1.width ≤ c.cols ∧
      (c.mode = Mode.hex → (recycleDrop c d g nid).1.width = 2) := by
  have hcols : 1 ≤ c.cols := by omega
  rcases hm : c.mode
  case ascii =>
    have hx := ite_randint_fst_le g (c.cols - 1)
    simp only [recycleDrop, hm]
    exact ⟨Nat.le_refl 1, by omega, fun h => Mode.noConfusion h⟩
  case hex =>
    have h2 : d.width = 2 := hhex hm
    have hx := ite_randint_fst_le g (c.cols - 2)
    simp only [recycleDrop, hm]
    exact ⟨by omega, by omega, fun _ => trivial⟩
  case mixed =>
    rcases choice2_fst g 1 2 with h1 | h1
    · have hx := ite_randint_fst_le (choice2 g 1 2).2 (c.cols - 1)
      simp only [recycleDrop, hm, h1, ite_self]
      exact ⟨Nat.le_refl 1, by omega, fun h => Mode.noConfusion h⟩
    · by_cases hcc : c.cols < 2
      · have hx := ite_randint_fst_le (choice2 g 1 2).2 (c.cols - 1)
        simp only [recycleDrop, hm, h1, true_and, if_pos hcc]
        exact ⟨Nat.le_refl 1, by omega, fun h => Mode.noConfusion h⟩
      · have hx := ite_randint_fst_le (choice2 g 1 2).2 (c.cols - 2)
        simp only [recycleDrop, hm, h1, true_and, if_neg hcc]
        exact ⟨by omega, by omega, fun h => Mode.noConfusion h⟩

theorem advanceDrop_index_preserved (c : Config) (d : Drop) (g : Rng) (nid : Nat)
    (h : 0 < c.fileSize) (hidx : d.index < c.fileSize) :
    (advanceDrop c d g nid).1.index < c.fileSize := by
  simp only [advanceDrop]
  split
  · exact Nat.mod_lt _ h
  · exact hidx

theorem advanceDrop_index_visible (c : Config) (d : Drop) (g : Rng) (nid : Nat)
    (h : 0 ≤ d.y + 1 ∧ d.y + 1 < (c.rows : Int)) :
    (advanceDrop c d g nid).1.index = (d.index + 1) % c.fileSize := by
  simp only [advanceDrop, if_pos h]

theorem advanceDrop_draw (c : Config) (d : Drop) (g : Rng) (nid : Nat)
    (h : 0 ≤ d.y + 1 ∧ d.y + 1 < (c.rows : Int)) :
    Ev.draw d.x (d.y + 1) (renderText d.mode (c.fileData d.index)) nid
      ∈ (advanceDrop c d g nid).2.2.2 := by
  simp only [advanceDrop, if_pos h]
  exact List.mem_cons_self _ _

theorem advanceDrop_items_spec (c : Config) (d : Drop) (g : Rng) (nid : Nat) :
    ∃ hist : List Nat, (hist = d.items ++ [nid] ∨ hist = d.items) ∧
      (advanceDrop c d g nid).1.items = hist.drop (hist.length - d.tail) ∧
      ∀ e ∈ hist.take (hist.length - d.tail), Ev.del e ∈ (advanceDrop c d g nid).2.2.2 := by
  simp only [advanceDrop]
  split
  · exact ⟨d.items ++ [nid], Or.inl rfl, rfl,
      fun e he => List.mem_cons_of_mem _ (List.mem_map_of_mem Ev.del he)⟩
  · exact ⟨d.items, Or.inr rfl, rfl, fun e he => List.mem_map_of_mem Ev.del he⟩

/-! ## Structure of one full tick and of the iterated run -/

theorem tickAll_nil (c : Config) (g : Rng) (nid : Nat) :
    tickAll c [] g nid = ([], g, nid, []) := rfl

theorem tickAll_cons (c : Config) (d : Drop) (ds : List Drop) (g : Rng) (nid : Nat) :
    tickAll c (d :: ds) g nid =
      ((tickDrop c d g nid).1 ::
          (tickAll c ds (tickDrop c d g nid).2.1 (tickDrop c d g nid).2.2.1).1,
        (tickAll c ds (tickDrop c d g nid).2.1 (tickDrop c d g nid).2.2.1).2.1,
        (tickAll c ds (tickDrop c d g nid).2.1 (tickDrop c d g nid).2.2.1).2.2.1,
        (tickDrop c d g nid).2.2.2 ++
          (tickAll c ds (tickDrop c d g nid).2.1 (tickDrop c d g nid).2.2.1).2.2.2) := rfl

theorem tickAll_length (c : Config) (ds : List Drop) :
    ∀ g nid, (tickAll c ds g nid).1.length = ds.length := by
  induction ds with
  | nil => intro g nid; rfl
  | cons d ds ih =>
    intro g nid
    rw [tickAll_cons]
    simp [ih]

theorem tickAll_mem (c : Config) (ds : List Drop) :
    ∀ g nid d', d' ∈ (tickAll c ds g nid).1 →
      ∃ d ∈ ds, ∃ g0 n0, d' = (tickDrop c d g0 n0).1 := by
  induction ds with
  | nil => intro g nid d' h; simp [tickAll_nil] at h
  | cons d ds ih =>
    intro g nid d' h
    rw [tickAll_cons] at h
    rcases List.mem_cons.mp h with h1 | h1
    · exact ⟨d, List.mem_cons_self _ _, g, nid, h1⟩
    · obtain ⟨d0, hd0, g0, n0, he⟩ := ih _ _ _ h1
      exact ⟨d0, List.mem_cons_of_mem _ hd0, g0, n0, he⟩

theorem tickAll_getD (c : Config) (ds : List Drop) :
    ∀ g nid i, i < ds.length →
      ∃ g0 n0, (tickAll c ds g nid).1.getD i defaultDrop =
        (tickDrop c (ds.getD i defaultDrop) g0 n0).1 := by
  induction ds with
  | nil => intro g nid i h; simp at h
  | cons d ds ih =>
    intro g nid i h
    rw [tickAll_cons]
    cases i with
    | zero => exact ⟨g, nid, rfl⟩
    | succ i =>
      have h' : i < ds.length := by simpa using h
      obtain ⟨g0, n0, he⟩ := ih (tickDrop c d g nid).2.1 (tickDrop c d g nid).2.2.1 i h'
      exact ⟨g0, n0, by simpa using he⟩

theorem runState_zero (c : Config) (g : Rng) :
    runState c g 0 = ((createDrops c g).1, (createDrops c g).2, 0) := rfl

theorem runState_succ (c : Config) (g : Rng) (n : Nat) :
    runState c g (n + 1) =
      ((tickAll c (runState c g n).1 (runState c g n).2.1 (runState c g n).2.2).1,
        (tickAll c (runState c g n).1 (runState c g n).2.1 (runState c g n).2.2).2.1,
        (tickAll c (runState c g n).1 (runState c g n).2.1 (runState c g n).2.2).2.2.1) := rfl

theorem runState_length (c : Config) (g : Rng) (n : Nat) :
    (runState c g n).1.length = (createDrops c g).1.length := by
  induction n with
  | zero => rfl
  | succ n ih => rw [runState_succ]; simpa [tickAll_length] using ih

/-- Any per-drop property established by the allocator and preserved by
every single-drop tick holds at every time of the run. -/
theorem runState_inv (c : Config) (g : Rng) (P : Drop → Prop)
    (h0 : ∀ d ∈ (createDrops c g).1, P d)
    (hstep : ∀ d g0 n0, P d → P (tickDrop c d g0 n0).1) :
    ∀ n, ∀ d ∈ (runState c g n).1, P d := by
  intro n
  induction n with
  | zero => exact h0
  | succ n ih =>
    intro d hd
    rw [runState_succ] at hd
    obtain ⟨d0, hd0, g0, n0, he⟩ := tickAll_mem c _ _ _ _ hd
    exact he ▸ hstep d0 g0 n0 (ih d0 hd0)

/-! ## What the allocator guarantees about every drop it places -/

theorem resolveAllocWidth_cases (mode : Mode) (cols x : Nat) (g : Rng) :
    (resolveAllocWidth mode cols x g).1 = 1 ∨ (resolveAllocWidth mode cols x g).1 = 2 := by
  rcases mode
  · exact Or.inl rfl
  · exact Or.inr rfl
  · simp only [resolveAllocWidth]
    split
    · exact Or.inr rfl
    · exact Or.inl rfl

theorem createDropsAux_mem (mode : Mode) (cols rows fileSize minTail maxTail : Nat) :
    ∀ (fuel : Nat) (occ : List Bool) (x : Nat) (g : Rng),
      ∀ d ∈ (createDropsAux mode cols rows fileSize minTail maxTail fuel occ x g).1,
        d.items = [] ∧
        (-(rows : Int) ≤ d.y ∧ d.y ≤ 0) ∧
        (minTail ≤ d.tail ∧ (minTail ≤ maxTail → d.tail ≤ maxTail)) ∧
        (0 < fileSize → d.index < fileSize) ∧
        (1 ≤ d.width ∧ d.width ≤ 2) ∧
        (mode = Mode.ascii → d.width = 1) ∧
        (mode = Mode.hex → d.width = 2) ∧
        (mode ≠ Mode.mixed → d.mode = mode) ∧
        (mode = Mode.mixed → d.mode = Mode.ascii ∨ d.mode = Mode.hex) ∧
        (x ≤ d.x ∧ d.x + d.width ≤ cols) := by
  intro fuel
  induction fuel with
  | zero => intro occ x g d hd; simp [createDropsAux] at hd
  | succ fuel ih =>
    intro occ x g d hd
    simp only [createDropsAux] at hd
    split at hd
    case isFalse hx => simp at hd
    case isTrue hx =>
    split at hd
    case isFalse hp =>
      obtain ⟨p1, p2, p3, p4, p5, p6, p7, p8, p9, p10⟩ := ih _ _ _ d hd
      exact ⟨p1, p2, p3, p4, p5, p6, p7, p8, p9, by omega, p10.2⟩
    case isTrue hp =>
    split at hd
    case isTrue hskip =>
      obtain ⟨p1, p2, p3, p4, p5, p6, p7, p8, p9, p10⟩ := ih _ _ _ d hd
      exact ⟨p1, p2, p3, p4, p5, p6, p7, p8, p9, by omega, p10.2⟩
    case isFalse hskip =>
    split at hd
    case isTrue hocc =>
      obtain ⟨p1, p2, p3, p4, p5, p6, p7, p8, p9, p10⟩ := ih _ _ _ d hd
      exact ⟨p1, p2, p3, p4, p5, p6, p7, p8, p9, by omega, p10.2⟩
    case isFalse hocc =>
      rcases List.mem_cons.mp hd with rfl | hmem
      · refine ⟨rfl, neg_randint_bound _ rows,
          ⟨randint_fst_ge _ _ _, fun h => randint_fst_le _ _ _ h⟩,
          fun h => randrange_fst_lt _ _ h, ?_, ?_, ?_, ?_, ?_, ?_⟩
        · show 1 ≤ (resolveAllocWidth mode cols x (coin g).2).1 ∧
            (resolveAllocWidth mode cols x (coin g).2).1 ≤ 2
          rcases resolveAllocWidth_cases mode cols x (coin g).2 with h | h <;> omega
        · intro hma; subst hma; rfl
        · intro hmh; subst hmh; rfl
        · intro hnm
          show (resolveDropMode mode (randrange (randint (randint (resolveAllocWidth mode cols x (coin g).2).2 0 rows).2 minTail maxTail).2 fileSize).2).1 = mode
          simp [resolveDropMode, hnm]
        · intro hmm; subst hmm
          show (resolveDropMode Mode.mixed _).1 = Mode.ascii ∨
            (resolveDropMode Mode.mixed _).1 = Mode.hex
          simp only [resolveDropMode, reduceIte]
          exact choice2_fst _ _ _
        · show x ≤ x ∧ x + (resolveAllocWidth mode cols x (coin g).2).1 ≤ cols
          refine ⟨Nat.le_refl x, ?_⟩
          rcases resolveAllocWidth_cases mode cols x (coin g).2 with h | h
          · omega
          · have hlt : ¬(cols - 1 ≤ x) := fun hc => hskip ⟨h, hc⟩
            omega
      · obtain ⟨p1, p2, p3, p4, p5, p6, p7, p8, p9, p10⟩ := ih _ _ _ d hmem
        exact ⟨p1, p2, p3, p4, p5, p6, p7, p8, p9, by omega, p10.2⟩

theorem createDrops_mem (c : Config) (g : Rng) :
    ∀ d ∈ (createDrops c g).1,
      d.items = [] ∧
      (-(c.rows : Int) ≤ d.y ∧ d.y ≤ 0) ∧
      (c.minTail ≤ d.tail ∧ (c.minTail ≤ c.maxTail → d.tail ≤ c.maxTail)) ∧
      (0 < c.fileSize → d.index < c.fileSize) ∧
      (1 ≤ d.width ∧ d.width ≤ 2) ∧
      (c.mode = Mode.ascii → d.width = 1) ∧
      (c.mode = Mode.hex → d.width = 2) ∧
      (c.mode ≠ Mode.mixed → d.mode = c.mode) ∧
      (c.mode = Mode.mixed → d.mode = Mode.ascii ∨ d.mode = Mode.hex) ∧
      d.x + d.width ≤ c.cols := by
  intro d hd
  unfold createDrops at hd
  split at hd
  · simp at hd
  · obtain ⟨p1, p2, p3, p4, p5, p6, p7, p8, p9, p10⟩ :=
      createDropsAux_mem c.mode c.cols c.rows c.fileSize c.minTail c.maxTail
        c.cols (List.replicate c.cols false) 0 g d hd
    exact ⟨p1, p2, p3, p4, p5, p6, p7, p8, p9, p10.2⟩

/-! ## Occupancy bookkeeping -/

theorem getD_set_of_ne {α : Type} (l : List α) (k j : Nat) (a dflt : α) (h : j ≠ k) :
    (l.set k a).getD j dflt = l.getD j dflt := by
  simp [List.getD_eq_getElem?_getD, List.getElem?_set_ne (fun he => h he.symm)]

theorem getD_set_self_true (l : List Bool) (k : Nat) (hk : k < l.length) :
    (l.set k true).getD k false = true := by
  simp [List.getD_eq_getElem?_getD, List.getElem?_set_self hk]

theorem getD_set_true (l : List Bool) (k j : Nat) (h : l.getD j false = true) :
    (l.set k true).getD j false = true := by
  by_cases hj : j = k
  · subst hj
    by_cases hk : j < l.length
    · exact getD_set_self_true l j hk
    · rw [List.set_eq_of_length_le (by omega)]
      exact h
  · rw [getD_set_of_ne l k j true false hj]
    exact h

theorem length_markOccupied (occ : List Bool) (x : Nat) :
    ∀ w, (markOccupied occ x w).length = occ.length := by
  intro w
  induction w with
  | zero => rfl
  | succ w ih => simp only [markOccupied, List.length_set]; exact ih

theorem getD_markOccupied_mono (occ : List Bool) (x : Nat) :
    ∀ w j, occ.getD j false = true → (markOccupied occ x w).getD j false = true := by
  intro w
  induction w with
  | zero => exact fun j h => h
  | succ w ih =>
    intro j h
    simp only [markOccupied]
    exact getD_set_true _ _ _ (ih j h)

theorem getD_markOccupied_self (occ : List Bool) (x : Nat) :
    ∀ w i, i < w → x + i < occ.length →
      (markOccupied occ x w).getD (x + i) false = true := by
  intro w
  induction w with
  | zero => intro i hi; omega
  | succ w ih =>
    intro i hi hlen
    simp only [markOccupied]
    by_cases hiw : i = w
    · subst hiw
      exact getD_set_self_true _ _ (by rw [length_markOccupied]; exact hlen)
    · exact getD_set_true _ _ _ (ih i (by omega) hlen)

theorem anyOccupied_eq_false (occ : List Bool) (x : Nat) :
    ∀ w, anyOccupied occ x w = false → ∀ i, i < w → occ.getD (x + i) false = false := by
  intro w
  induction w with
  | zero => intro _ i hi; omega
  | succ w ih =>
    intro h i hi
    simp only [anyOccupied, Bool.or_eq_false_iff] at h
    by_cases hiw : i = w
    · subst hiw; exact h.2
    · exact ih h.1 i (by omega)

/-! ## Non-overlap of allocated drops -/

theorem createDropsAux_disjoint (mode : Mode) (cols rows fileSize minTail maxTail : Nat) :
    ∀ (fuel : Nat) (occ : List Bool) (x : Nat) (g : Rng), occ.length = cols →
      (∀ d ∈ (createDropsAux mode cols rows fileSize minTail maxTail fuel occ x g).1,
        ∀ j, d.x ≤ j → j < d.x + d.width → occ.getD j false = false) ∧
      (createDropsAux mode cols rows fileSize minTail maxTail fuel occ x g).1.Pairwise dropsDisjoint := by
  intro fuel
  induction fuel with
  | zero =>
    intro occ x g _
    exact ⟨by simp [createDropsAux], by simp [createDropsAux]⟩
  | succ fuel ih =>
    intro occ x g hlen
    simp only [createDropsAux]
    split
    case isFalse hx => exact ⟨by simp, List.Pairwise.nil⟩
    case isTrue hx =>
    split
    case isFalse hp => exact ih _ _ _ hlen
    case isTrue hp =>
    split
    case isTrue hskip => exact ih _ _ _ hlen
    case isFalse hskip =>
    split
    case isTrue hocc => exact ih _ _ _ hlen
    case isFalse hocc =>
      have hlen' : (markOccupied occ x (resolveAllocWidth mode cols x (coin g).2).1).length = cols := by
        rw [length_markOccupied]; exact hlen
      obtain ⟨ihfree, ihpw⟩ :=
        ih (markOccupied occ x (resolveAllocWidth mode cols x (coin g).2).1)
          (x + (resolveAllocWidth mode cols x (coin g).2).1) _ hlen'
      have hoccf : anyOccupied occ x (resolveAllocWidth mode cols x (coin g).2).1 = false := by
        cases hcc : anyOccupied occ x (resolveAllocWidth mode cols x (coin g).2).1
        · rfl
        · exact absurd hcc hocc
      have hxw : x + (resolveAllocWidth mode cols x (coin g).2).1 ≤ cols := by
        rcases resolveAllocWidth_cases mode cols x (coin g).2 with h | h
        · omega
        · have hlt : ¬(cols - 1 ≤ x) := fun hc => hskip ⟨h, hc⟩
          omega
      constructor
      · intro d hd j hj1 hj2
        rcases List.mem_cons.mp hd with rfl | hmem
        · have hj1' : x ≤ j := hj1
          have hj2' : j < x + (resolveAllocWidth mode cols x (coin g).2).1 := hj2
          have hfree := anyOccupied_eq_false occ x
            (resolveAllocWidth mode cols x (coin g).2).1 hoccf (j - x) (by omega)
          have hjj : x + (j - x) = j := by omega
          rw [hjj] at hfree
          exact hfree
        · have hfree' := ihfree d hmem j hj1 hj2
          cases hgd : occ.getD j false with
          | false => rfl
          | true =>
            exfalso
            have hmono := getD_markOccupied_mono occ x
              (resolveAllocWidth mode cols x (coin g).2).1 j hgd
            rw [hfree'] at hmono
            exact Bool.false_ne_true hmono
      · refine List.pairwise_cons.mpr ⟨?_, ihpw⟩
        intro d hmem j hj
        obtain ⟨hj1, hj2, hj3, hj4⟩ := hj
        have hj1' : x ≤ j := hj1
        have hj2' : j < x + (resolveAllocWidth mode cols x (coin g).2).1 := hj2
        have hfree' := ihfree d hmem j hj3 hj4
        have hself := getD_markOccupied_self occ x
          (resolveAllocWidth mode cols x (coin g).2).1 (j - x) (by omega) (by omega)
        have hjj : x + (j - x) = j := by omega
        rw [hjj] at hself
        rw [hfree'] at hself
        exact Bool.false_ne_true hself

/-! ## The claims -/

/-- C1: on every tick, a drop is recycled exactly when `headRow - tailLength
≥ rows` held at the start of the tick; a recycled drop has every glyph
handle of its history released (and nothing else emitted, so no render),
its history cleared, no fresh canvas item allocated, and its head reset at
or above the top rather than advanced; a non-recycled drop goes through the
advance branch and its head row grows by exactly one. -/
theorem claim_C1 : ∀ (c : Config) (d : Drop) (g : Rng) (nid : Nat),
    (recycleCond c.rows d →
      tickDrop c d g nid = recycleDrop c d g nid ∧
      (tickDrop c d g nid).1.items = [] ∧
      (tickDrop c d g nid).2.2.2 = d.items.map Ev.del ∧
      (tickDrop c d g nid).2.2.1 = nid ∧
      (tickDrop c d g nid).1.y ≤ 0) ∧
    (¬ recycleCond c.rows d →
      tickDrop c d g nid = advanceDrop c d g nid ∧
      (tickDrop c d g nid).1.y = d.y + 1) := by
  intro c d g nid
  constructor
  · intro h
    have he := tickDrop_recycle c d g nid h
    refine ⟨he, ?_, ?_, ?_, ?_⟩
    · rw [he]; exact recycleDrop_items c d g nid
    · rw [he]; exact recycleDrop_evs c d g nid
    · rw [he]; exact recycleDrop_nid c d g nid
    · rw [he]; exact (recycleDrop_y_bound c d g nid).2
  · intro h
    have he := tickDrop_advance c d g nid h
    exact ⟨he, by rw [he]; exact advanceDrop_y c d g nid⟩

/-- C1 witness: a concrete offscreen drop is recycled (history released and
cleared), a concrete onscreen drop advances by one row. -/
theorem claim_C1_witness :
    (tickDrop scenarioConfig offscreenDrop zeroStream 9).1.items = [] ∧
    (tickDrop scenarioConfig offscreenDrop zeroStream 9).2.2.2 =
      offscreenDrop.items.map Ev.del ∧
    (tickDrop tinyConfig visibleDrop zeroStream 9).1.y = visibleDrop.y + 1 :=
  ⟨((claim_C1 scenarioConfig offscreenDrop zeroStream 9).1 (by decide)).2.1,
   ((claim_C1 scenarioConfig offscreenDrop zeroStream 9).1 (by decide)).2.2.1,
   ((claim_C1 tinyConfig visibleDrop zeroStream 9).2 (by decide)).2⟩

/-- C2: for every configuration and random stream, the drops produced by
the allocator have pairwise disjoint column ranges `[x, x+width)`. -/
theorem claim_C2 : ∀ (c : Config) (g : Rng),
    (createDrops c g).1.Pairwise dropsDisjoint := by
  intro c g
  unfold createDrops
  split
  · exact List.Pairwise.nil
  · exact (createDropsAux_disjoint c.mode c.cols c.rows c.fileSize c.minTail
      c.maxTail c.cols (List.replicate c.cols false) 0 g (by simp)).2

set_option maxRecDepth 8192 in
/-- C3: ascii rendering emits the byte's character exactly when the byte is
in Python's printable set minus vertical tab and form feed (characterised
extensionally as codes 32-126 plus tab, newline, carriage return) and a
period otherwise, with byte 0 rendering a period and byte 65 rendering A;
hex rendering emits two upper-case hexadecimal digits whose value is the
byte, with byte 10 rendering 0A and byte 255 rendering FF; a visible
non-recycled drop emits exactly this text at its column and new head row. -/
theorem claim_C3 :
    renderAscii 0x00 = "." ∧ renderAscii 0x41 = "A" ∧
    renderHex 0x0A = "0A" ∧ renderHex 0xFF = "FF" ∧
    (∀ b, b < 256 →
      renderAscii b =
        if (32 ≤ b ∧ b ≤ 126) ∨ b = 9 ∨ b = 10 ∨ b = 13
        then String.mk [Char.ofNat b] else ".") ∧
    (∀ b, b < 256 →
      renderHex b = String.mk [hexDigit (b / 16), hexDigit (b % 16)] ∧
      isUpperHexDigit (hexDigit (b / 16)) = true ∧
      isUpperHexDigit (hexDigit (b % 16)) = true ∧
      16 * hexCharVal (hexDigit (b / 16)) + hexCharVal (hexDigit (b % 16)) = b) ∧
    (∀ (c : Config) (d : Drop) (g : Rng) (nid : Nat), ¬ recycleCond c.rows d →
      0 ≤ d.y + 1 → d.y + 1 < (c.rows : Int) →
      Ev.draw d.x (d.y + 1) (renderText d.mode (c.fileData d.index)) nid
        ∈ (tickDrop c d g nid).2.2.2) := by
  refine ⟨by decide, by decide, by decide, by decide, by decide, by decide, ?_⟩
  intro c d g nid hnr h1 h2
  rw [tickDrop_advance c d g nid hnr]
  exact advanceDrop_draw c d g nid ⟨h1, h2⟩

/-- C3 witness: the printable characterisation applied at byte 65 and the
emitted draw event of a concrete visible drop. -/
theorem claim_C3_witness :
    renderAscii 65 =
      (if (32 ≤ 65 ∧ 65 ≤ 126) ∨ 65 = 9 ∨ 65 = 10 ∨ 65 = 13
       then String.mk [Char.ofNat 65] else ".") ∧
    Ev.draw visibleDrop.x (visibleDrop.y + 1)
        (renderText visibleDrop.mode (scenarioConfig.fileData visibleDrop.index)) 9
      ∈ (tickDrop scenarioConfig visibleDrop zeroStream 9).2.2.2 :=
  ⟨claim_C3.2.2.2.2.1 65 (by decide),
   claim_C3.2.2.2.2.2.2 scenarioConfig visibleDrop zeroStream 9
     (by decide) (by decide) (by decide)⟩

/-- C4: after any full tick every drop's history holds at most tailLength
glyph handles; on the advance branch the kept history is a suffix of the
appended history, the evicted entries being the oldest-first prefix, each
with a matching delete event. -/
theorem claim_C4 : ∀ (c : Config) (ds : List Drop) (g : Rng) (nid : Nat),
    (∀ d' ∈ (tickAll c ds g nid).1, d'.items.length ≤ d'.tail) ∧
    (∀ (d : Drop) (g0 : Rng) (n0 : Nat), ¬ recycleCond c.rows d →
      ∃ evicted kept : List Nat,
        (tickDrop c d g0 n0).1.items = kept ∧
        kept.length ≤ d.tail ∧
        (evicted ++ kept = d.items ++ [n0] ∨ evicted ++ kept = d.items) ∧
        ∀ e ∈ evicted, Ev.del e ∈ (tickDrop c d g0 n0).2.2.2) := by
  intro c ds g nid
  have hbound : ∀ (d : Drop) (g0 : Rng) (n0 : Nat),
      (tickDrop c d g0 n0).1.items.length ≤ (tickDrop c d g0 n0).1.tail := by
    intro d g0 n0
    by_cases h : (c.rows : Int) ≤ d.y - (d.tail : Int)
    · rw [tickDrop_recycle c d g0 n0 h, recycleDrop_items]
      exact Nat.zero_le _
    · rw [tickDrop_advance c d g0 n0 h]
      have h1 := advanceDrop_items_len c d g0 n0
      have h2 := advanceDrop_tail c d g0 n0
      rw [h2]
      exact h1
  constructor
  · intro d' hd'
    obtain ⟨d0, _, g0, n0, he⟩ := tickAll_mem c ds g nid d' hd'
    rw [he]
    exact hbound d0 g0 n0
  · intro d g0 n0 h
    rw [tickDrop_advance c d g0 n0 h]
    obtain ⟨hist, hh, hkept, hdel⟩ := advanceDrop_items_spec c d g0 n0
    refine ⟨hist.take (hist.length - d.tail), hist.drop (hist.length - d.tail),
      hkept, by simp [List.length_drop]; omega, ?_, hdel⟩
    rcases hh with h1 | h1
    · exact Or.inl (by rw [List.take_append_drop, h1])
    · exact Or.inr (by rw [List.take_append_drop, h1])

/-- C4 witness: the bound at the drop produced by a concrete one-drop tick,
and the eviction decomposition at a concrete non-recycled drop. -/
theorem claim_C4_witness :
    ({ x := 2, y := 1, width := 1, tail := 2, index := 2
       mode := Mode.ascii, items := [6, 9] } : Drop).items.length ≤
      ({ x := 2, y := 1, width := 1, tail := 2, index := 2
         mode := Mode.ascii, items := [6, 9] } : Drop).tail ∧
    (∃ evicted kept : List Nat,
      (tickDrop scenarioConfig visibleDrop zeroStream 9).1.items = kept ∧
      kept.length ≤ visibleDrop.tail ∧
      (evicted ++ kept = visibleDrop.items ++ [9] ∨
        evicted ++ kept = visibleDrop.items) ∧
      ∀ e ∈ evicted, Ev.del e ∈ (tickDrop scenarioConfig visibleDrop zeroStream 9).2.2.2) :=
  ⟨(claim_C4 scenarioConfig [visibleDrop] zeroStream 9).1 _ (by decide),
   (claim_C4 scenarioConfig [] zeroStream 0).2 visibleDrop zeroStream 9 (by decide)⟩

/-- C5: with a non-empty byte source the cursor is in range at every time
of the run (after allocation and after any number of ticks, recycles
included), and a render by a visible non-recycled drop advances the cursor
to (cursor + 1) mod length, giving in-order wraparound cycling. -/
theorem claim_C5 : ∀ (c : Config) (g : Rng), 1 ≤ c.fileSize →
    (∀ n, ∀ d ∈ (runState c g n).1, 0 ≤ d.index ∧ d.index < c.fileSize) ∧
    (∀ (d : Drop) (g0 : Rng) (n0 : Nat), ¬ recycleCond c.rows d →
      0 ≤ d.y + 1 → d.y + 1 < (c.rows : Int) →
      (tickDrop c d g0 n0).1.index = (d.index + 1) % c.fileSize) := by
  intro c g hL
  constructor
  · have h0 : ∀ d ∈ (createDrops c g).1, d.index < c.fileSize :=
      fun d hd => (createDrops_mem c g d hd).2.2.2.1 hL
    have hstep : ∀ (d : Drop) (g0 : Rng) (n0 : Nat), d.index < c.fileSize →
        (tickDrop c d g0 n0).1.index < c.fileSize := by
      intro d g0 n0 hidx
      by_cases h : (c.rows : Int) ≤ d.y - (d.tail : Int)
      · rw [tickDrop_recycle c d g0 n0 h]
        exact recycleDrop_index_lt c d g0 n0 hL
      · rw [tickDrop_advance c d g0 n0 h]
        exact advanceDrop_index_preserved c d g0 n0 hL hidx
    intro n d hd
    exact ⟨Nat.zero_le _,
      runState_inv c g (fun d => d.index < c.fileSize) h0 hstep n d hd⟩
  · intro d g0 n0 h h1 h2
    rw [tickDrop_advance c d g0 n0 h]
    exact advanceDrop_index_visible c d g0 n0 ⟨h1, h2⟩

/-- C5 witness: the cursor bound at the drop in column 0 after one tick of
the concrete scenario run, and the modular advance of a concrete visible
drop. -/
theorem claim_C5_witness :
    (0 ≤ ({ x := 0, y := 1, width := 1, tail := 2, index := 1
            mode := Mode.ascii, items := [0] } : Drop).index ∧
      ({ x := 0, y := 1, width := 1, tail := 2, index := 1
         mode := Mode.ascii, items := [0] } : Drop).index < scenarioConfig.fileSize) ∧
    (tickDrop scenarioConfig visibleDrop zeroStream 9).1.index =
      (visibleDrop.index + 1) % scenarioConfig.fileSize :=
  ⟨(claim_C5 scenarioConfig zeroStream (by decide)).1 1 _ (by decide),
   (claim_C5 scenarioConfig zeroStream (by decide)).2 visibleDrop zeroStream 9
     (by decide) (by decide) (by decide)⟩

/-- C6: at every time of the run (after allocation and after any number of
ticks, hence in particular after every recycle) every drop's column range
lies inside the grid: 0 ≤ column and column + width ≤ columns. -/
theorem claim_C6 : ∀ (c : Config) (g : Rng) (n : Nat),
    ∀ d ∈ (runState c g n).1, 0 ≤ d.x ∧ d.x + d.width ≤ c.cols := by
  intro c g n
  have h0 : ∀ d ∈ (createDrops c g).1,
      1 ≤ d.width ∧ d.x + d.width ≤ c.cols ∧ (c.mode = Mode.hex → d.width = 2) := by
    intro d hd
    obtain ⟨_, _, _, _, p5, _, p7, _, _, p10⟩ := createDrops_mem c g d hd
    exact ⟨p5.1, p10, p7⟩
  have hstep : ∀ (d : Drop) (g0 : Rng) (n0 : Nat),
      (1 ≤ d.width ∧ d.x + d.width ≤ c.cols ∧ (c.mode = Mode.hex → d.width = 2)) →
      1 ≤ (tickDrop c d g0 n0).1.width ∧
        (tickDrop c d g0 n0).1.x + (tickDrop c d g0 n0).1.width ≤ c.cols ∧
        (c.mode = Mode.hex → (tickDrop c d g0 n0).1.width = 2) := by
    intro d g0 n0 hinv
    obtain ⟨hw, hxw, hhex⟩ := hinv
    by_cases h : (c.rows : Int) ≤ d.y - (d.tail : Int)
    · rw [tickDrop_recycle c d g0 n0 h]
      exact recycleDrop_inv c d g0 n0 hw hxw hhex
    · rw [tickDrop_advance c d g0 n0 h, advanceDrop_width, advanceDrop_x]
      exact ⟨hw, hxw, fun hm => hhex hm⟩
  intro d hd
  have hres := runState_inv c g
    (fun d => 1 ≤ d.width ∧ d.x + d.width ≤ c.cols ∧ (c.mode = Mode.hex → d.width = 2))
    h0 hstep n d hd
  exact ⟨Nat.zero_le _, hres.2.1⟩

/-- C6 witness: the column bound at the first drop allocated in the
concrete scenario run. -/
theorem claim_C6_witness :
    0 ≤ ({ x := 0, y := 0, width := 1, tail := 2, index := 0
           mode := Mode.ascii, items := [] } : Drop).x ∧
    ({ x := 0, y := 0, width := 1, tail := 2, index := 0
       mode := Mode.ascii, items := [] } : Drop).x +
      ({ x := 0, y := 0, width := 1, tail := 2, index := 0
         mode := Mode.ascii, items := [] } : Drop).width ≤ scenarioConfig.cols :=
  claim_C6 scenarioConfig zeroStream 0 _ (by decide)

/-- C7 counterexample: in the concrete scenario run, at tick 13 the drop in
column 0 is recycled, so its head row is not the previous head row plus
one — the claim that every tick advances every drop by exactly one row
fails. -/
theorem claim_C7_counterexample :
    ¬ (∀ i, i < (runState scenarioConfig zeroStream 12).1.length →
        ((runState scenarioConfig zeroStream 13).1.getD i defaultDrop).y =
          ((runState scenarioConfig zeroStream 12).1.getD i defaultDrop).y + 1) := by
  intro h
  have h0 := h 0 (by decide)
  revert h0
  decide

/-- C7 amended: every invocation of tick advances by exactly one row every
drop whose recycle condition does not hold at the start of the tick
(recycled drops are instead reset); tick is the sole mutator of drop state
after allocation. -/
theorem claim_C7 : ∀ (c : Config) (ds : List Drop) (g : Rng) (nid : Nat) (i : Nat),
    i < ds.length → ¬ recycleCond c.rows (ds.getD i defaultDrop) →
    ((tickAll c ds g nid).1.getD i defaultDrop).y = (ds.getD i defaultDrop).y + 1 := by
  intro c ds g nid i hi h
  obtain ⟨g0, n0, he⟩ := tickAll_getD c ds g nid i hi
  rw [he, tickDrop_advance _ _ _ _ h]
  exact advanceDrop_y c _ g0 n0

/-- C7 witness: a concrete one-drop tick advancing the head by one row. -/
theorem claim_C7_witness :
    ((tickAll scenarioConfig [visibleDrop] zeroStream 9).1.getD 0 defaultDrop).y =
      ([visibleDrop].getD 0 defaultDrop).y + 1 :=
  claim_C7 scenarioConfig [visibleDrop] zeroStream 9 0 (by decide) (by decide)

/-- C8 counterexample: in the concrete scenario run (columns 4, rows 10,
ascii, source length 100, tails fixed at 2) driven by the all-zero stream,
allocation places four drops, yet no tick among the first
rows + tailLength = 12 recycles the drop of column 0 — its head starts at
row 0 and the recycle condition needs twelve more rows of travel. -/
theorem claim_C8_counterexample :
    (createDrops scenarioConfig zeroStream).1.length = 4 ∧
    ¬ (∀ i, i < (createDrops scenarioConfig zeroStream).1.length →
        ∃ t, t < 12 ∧ recycleCond scenarioConfig.rows
          ((runState scenarioConfig zeroStream t).1.getD i defaultDrop)) := by
  refine ⟨by decide, ?_⟩
  intro h
  obtain ⟨t, ht, hrec⟩ := h 0 (by decide)
  have hall : ∀ t, t < 12 → ¬ recycleCond scenarioConfig.rows
      ((runState scenarioConfig zeroStream t).1.getD 0 defaultDrop) := by decide
  exact hall t ht hrec

/-- C8 amended: with columns 4, rows 10, mode ascii, source length 100 and
minTail = maxTail = 2, every allocated drop has width 1 and tail length 2,
and within 2 * rows + tailLength + 1 = 23 ticks every initially-placed
drop has recycled at least once, for every random stream (a head may start
up to rows rows above the top, so rows + tailLength ticks do not suffice,
but 2 * rows + tailLength + 1 always do). -/
theorem claim_C8 : ∀ (c : Config) (g : Rng),
    c.mode = Mode.ascii → c.cols = 4 → c.rows = 10 → c.fileSize = 100 →
    c.minTail = 2 → c.maxTail = 2 →
    (∀ d ∈ (createDrops c g).1, d.width = 1 ∧ d.tail = 2) ∧
    (∀ i, i < (createDrops c g).1.length →
      ∃ t, t < 23 ∧ recycleCond c.rows ((runState c g t).1.getD i defaultDrop)) := by
  intro c g hm hc hr hf hmin hmax
  have halloc : ∀ d ∈ (createDrops c g).1,
      d.width = 1 ∧ d.tail = 2 ∧ -(c.rows : Int) ≤ d.y ∧ d.y ≤ 0 := by
    intro d hd
    obtain ⟨_, p2, p3, _, _, p6, _, _, _, _⟩ := createDrops_mem c g d hd
    refine ⟨p6 hm, ?_, p2.1, p2.2⟩
    have h1 := p3.1
    have h2 := p3.2 (by omega)
    omega
  constructor
  · exact fun d hd => ⟨(halloc d hd).1, (halloc d hd).2.1⟩
  · intro i hi
    by_cases hex : ∃ t, t < 23 ∧ recycleCond c.rows
        ((runState c g t).1.getD i defaultDrop)
    · exact hex
    · exfalso
      push_neg at hex
      have hmem0 : (createDrops c g).1.getD i defaultDrop ∈ (createDrops c g).1 := by
        rw [List.getD_eq_getElem _ _ hi]
        exact List.getElem_mem _
      obtain ⟨hw0, hts0, hy0a, hy0b⟩ := halloc _ hmem0
      have key : ∀ t, t ≤ 22 →
          ((runState c g t).1.getD i defaultDrop).y =
            ((createDrops c g).1.getD i defaultDrop).y + t ∧
          ((runState c g t).1.getD i defaultDrop).tail = 2 := by
        intro t
        induction t with
        | zero =>
          intro _
          constructor
          · show ((createDrops c g).1.getD i defaultDrop).y =
              ((createDrops c g).1.getD i defaultDrop).y + ((0 : Nat) : Int)
            simp
          · exact hts0
        | succ t ih =>
          intro ht
          obtain ⟨ihy, iht⟩ := ih (by omega)
          have hcond : ¬ recycleCond c.rows ((runState c g t).1.getD i defaultDrop) :=
            hex t (by omega)
          have hlen : i < (runState c g t).1.length := by
            rw [runState_length]; exact hi
          obtain ⟨g0, n0, he⟩ := tickAll_getD c (runState c g t).1
            (runState c g t).2.1 (runState c g t).2.2 i hlen
          have hs : (runState c g (t + 1)).1.getD i defaultDrop =
              (tickDrop c ((runState c g t).1.getD i defaultDrop) g0 n0).1 := by
            rw [runState_succ]
            exact he
          rw [hs, tickDrop_advance _ _ _ _ hcond]
          constructor
          · rw [advanceDrop_y, ihy]
            push_cast
            ring
          · rw [advanceDrop_tail]
            exact iht
      obtain ⟨hy22, htl22⟩ := key 22 (by omega)
      refine hex 22 (by omega) ?_
      show (c.rows : Int) ≤ ((runState c g 22).1.getD i defaultDrop).y -
        (((runState c g 22).1.getD i defaultDrop).tail : Int)
      rw [hy22, htl22]
      omega

/-- C8 witness: the width and tail of the first drop allocated in the
concrete scenario run, and its recycling within 23 ticks. -/
theorem claim_C8_witness :
    ({ x := 0, y := 0, width := 1, tail := 2, index := 0
       mode := Mode.ascii, items := [] } : Drop).width = 1 ∧
    ({ x := 0, y := 0, width := 1, tail := 2, index := 0
       mode := Mode.ascii, items := [] } : Drop).tail = 2 ∧
    (∃ t, t < 23 ∧ recycleCond scenarioConfig.rows
      ((runState scenarioConfig zeroStream t).1.getD 0 defaultDrop)) :=
  ⟨((claim_C8 scenarioConfig zeroStream rfl rfl rfl rfl rfl rfl).1 _ (by decide)).1,
   ((claim_C8 scenarioConfig zeroStream rfl rfl rfl rfl rfl rfl).1 _ (by decide)).2,
   (claim_C8 scenarioConfig zeroStream rfl rfl rfl rfl rfl rfl).2 0 (by decide)⟩

/-- C9: a degenerate grid (no columns or no rows) makes the allocator
return an empty drop set with the random state untouched and no error, and
a tick over an empty drop set changes nothing and emits no canvas event. -/
theorem claim_C9 : ∀ (c : Config) (g : Rng) (nid : Nat),
    (c.cols < 1 ∨ c.rows < 1 → createDrops c g = ([], g)) ∧
    tickAll c [] g nid = ([], g, nid, []) := by
  intro c g nid
  refine ⟨fun h => ?_, rfl⟩
  unfold createDrops
  rw [if_pos h]

/-- C9 witness: the zero-column configuration allocates nothing and ticking
the empty drop set is a no-op. -/
theorem claim_C9_witness :
    createDrops degenConfig zeroStream = ([], zeroStream) ∧
    tickAll degenConfig [] zeroStream 0 = ([], zeroStream, 0, []) :=
  ⟨(claim_C9 degenConfig zeroStream 0).1 (Or.inl (by decide)),
   (claim_C9 degenConfig zeroStream 0).2⟩

set_option maxRecDepth 8192 in
/-- C10: the whitespace bytes space, tab, newline and carriage return are
each rendered as themselves in ascii mode, and every byte value from 128
to 255 renders a period. -/
theorem claim_C10 :
    renderAscii 0x20 = " " ∧ renderAscii 0x09 = "\t" ∧
    renderAscii 0x0A = "\n" ∧ renderAscii 0x0D = "\r" ∧
    (∀ b, b < 256 → 128 ≤ b → renderAscii b = ".") := by
  exact ⟨by decide, by decide, by decide, by decide, by decide⟩

/-- C10 witness: byte 159 renders a period. -/
theorem claim_C10_witness : renderAscii 159 = "." :=
  claim_C10.2.2.2.2 159 (by decide) (by decide)
